import Mathlib

/-!
Verification of the JMLR metadata-extraction engine.

This file is a shallow embedding of the heuristic metadata-extraction
pipeline found in `proc_jmlr.py`, `pdf_normal_format.py` and
`proc_jmlr_lite.py`:

* text spans carry a text string, a bounding rectangle and (for the
  full pipeline) a font name and size; page coordinates, `float` in the
  source, are modelled as integers (the pipeline only ever compares
  coordinates, subtracts them and takes absolute values, and no claim
  under verification involves a fractional coordinate);
* every regular expression of the source is hand-translated into a
  deterministic recursive-descent matcher over `List Char`; each
  translation step is annotated with the regex fragment it implements
  (the patterns involved are deterministic enough that a greedy
  left-to-right scan is equivalent to backtracking search, as argued in
  the comments);
* Python list indexing that may raise `IndexError` is modelled in the
  `Option` monad: a `none` result of a pipeline function models an
  unhandled exception, a `some` result a normal return value;
* `unicodedata.normalize("NFKD", ...)` is a library call outside this
  repository; it is modelled from the spec by a character table that is
  the identity on characters without compatibility decompositions and
  tabulates the ligature/accent decompositions exercised here.
-/

/-! ## Character classes (models of the regex classes `\s`, `\d`) -/

/-- Model of the regex class `\s` (restricted to the ASCII whitespace
characters, which are the only whitespace characters arising here). -/
def isSpaceChar (c : Char) : Bool :=
  decide (c = ' ' ∨ c = '\t' ∨ c = '\n' ∨ c = '\r' ∨ c = '\x0b' ∨ c = '\x0c')

/-- Model of the regex class `\d` (ASCII digits `0`-`9`). -/
def isDigitChar (c : Char) : Bool :=
  decide (48 ≤ c.toNat ∧ c.toNat ≤ 57)

/-! ## The lite pipeline: `proc_jmlr_lite.py` -/

/-- A text piece of the lite pipeline: `{"text": str, "rect": (x0, y0, x1, y1)}`. -/
structure LPiece where
  text : String
  x0 : ℤ
  y0 : ℤ
  x1 : ℤ
  y1 : ℤ
deriving DecidableEq

/-- `needle` occurs as a contiguous sublist of the second argument. -/
def charsContain (needle : List Char) : List Char → Bool
  | [] => decide (needle = [])
  | c :: rest => needle.isPrefixOf (c :: rest) || charsContain needle rest

/-- Model of `re.search(needle, hay, re.IGNORECASE)` for a plain-text
`needle`: case-insensitive substring search (ASCII case folding). -/
def searchCI (needle hay : String) : Bool :=
  charsContain (needle.data.map Char.toLower) (hay.data.map Char.toLower)

/-- `re.search(r"(?u)Editor", text, re.IGNORECASE)` as a Bool. -/
def hasEditorTok (s : String) : Bool := searchCI "editor" s

/-- `re.search(r"(?u)Abstract", text, re.IGNORECASE)` as a Bool. -/
def hasAbstractTok (s : String) : Bool := searchCI "abstract" s

/-- `re.search(r"(?u)(c⃝)|(c\n⃝)|(c○)|(©)", text, re.IGNORECASE)`:
one of the four copyright-glyph spellings occurs in the text. -/
def hasCopyright (s : String) : Bool :=
  searchCI "c⃝" s || searchCI "c\n⃝" s || searchCI "c○" s ||
    searchCI "©" s

/-- The anchor scan of `coarse_filter_pieces`: one pass over the pieces
computing `left_index` and `right_index` (both start at `-1`).
For each index `i`:
`if re.search("Editor", t, I) and left_index == -1: left_index = i`
`elif re.search("Abstract", t, I) and left_index == -1: left_index = i - 1`;
`if re.search(copyright, t, I): right_index = i` (the last copyright
match wins, since the assignment is not guarded). -/
def anchor_scan_aux : List LPiece → Int → Int × Int → Int × Int
  | [], _, lr => lr
  | p :: rest, i, (l, r) =>
    let l' : Int :=
      if l = -1 then
        if hasEditorTok p.text then i
        else if hasAbstractTok p.text then i - 1
        else l
      else l
    let r' : Int := if hasCopyright p.text then i else r
    anchor_scan_aux rest (i + 1) (l', r')

/-- Anchor indices `(left_index, right_index)` computed by
`coarse_filter_pieces` (lines 108-124 of `proc_jmlr_lite.py`). -/
def anchor_scan (pieces : List LPiece) : Int × Int :=
  anchor_scan_aux pieces 0 (-1, -1)

/-- `coarse_filter_pieces` (`proc_jmlr_lite.py` lines 96-133): if both
anchors were found and `left_index < right_index`, return
`pieces[:left_index] + pieces[right_index:]`; otherwise raise
`JMLRPDFExtractionError` (modelled as `Except.error`).  The embedding is
pure, so the input list is never mutated. -/
def coarse_filter_pieces (pieces : List LPiece) : Except String (List LPiece) :=
  if (anchor_scan pieces).1 ≠ -1 ∧ (anchor_scan pieces).2 ≠ -1 ∧
      (anchor_scan pieces).1 < (anchor_scan pieces).2 then
    Except.ok (pieces.take (anchor_scan pieces).1.toNat ++
      pieces.drop (anchor_scan pieces).2.toNat)
  else
    Except.error "Cannot find Editor / Abstract and Copyright"

/-! ## Header grammar parsing: `parse_header` and `year_process` -/

/-- Model of Python `str.split("/")`, on the character list. -/
def splitSlash : List Char → List (List Char)
  | [] => [[]]
  | c :: rest =>
    if c = '/' then [] :: splitSlash rest
    else
      match splitSlash rest with
      | [] => [[c]]
      | h :: t => (c :: h) :: t

/-- Value of a digit string (used to model Python `int(...)` on the
digit-only strings produced by the regex captures; `none` models the
`ValueError` Python would raise on anything else). -/
def digitsToNat (cs : List Char) : Option Nat :=
  if cs ≠ [] ∧ cs.all isDigitChar then
    some (cs.foldl (fun a c => a * 10 + (c.toNat - 48)) 0)
  else none

/-- Model of the Python format specifier `f"{n:02d}"` for `n ≥ 0`. -/
def pad2 (n : Nat) : String :=
  if n < 10 then "0" ++ Nat.repr n else Nat.repr n

/-- `year_process` (`proc_jmlr_lite.py` lines 190-198): expand a
captured `month/year2digit` token.  The fall-through branches model the
`ValueError` paths that are unreachable from the regex captures. -/
def year_process (year_str : String) : String :=
  if year_str = "" then year_str
  else
    match splitSlash year_str.data with
    | [ms, ys] =>
      match digitsToNat ms, digitsToNat ys with
      | some m, some y =>
        -- `if int(submitted_year) >= 90: f"19{y:02d}.{m:02d}" else f"20{y:02d}.{m:02d}"`
        if 90 ≤ y then "19" ++ pad2 y ++ "." ++ pad2 m
        else "20" ++ pad2 y ++ "." ++ pad2 m
      | _, _ => year_str
    | _ => year_str

/-! ### Recursive-descent pieces for the citation-header grammars

The two header regexes of the source (`parse_header` in
`proc_jmlr_lite.py`, case-insensitive, and `is_valid_jmlr_format` in
`proc_jmlr.py`, case-sensitive) are translated fragment by fragment.
Each quantifier in them is followed by input that cannot extend the
greedy match (a digit run is never followed by an element that can start
with a digit, a whitespace run never by an element that can start with
whitespace, and each optional group starts with a literal that the
alternative continuation rejects), so greedy committed parsing is
equivalent to backtracking search. -/

/-- Case-insensitive literal (for a pattern compiled with `re.IGNORECASE`). -/
def pLitCI : List Char → List Char → Option (List Char)
  | [], cs => some cs
  | l :: ls, c :: cs => if c.toLower = l.toLower then pLitCI ls cs else none
  | _ :: _, [] => none

/-- Case-sensitive literal. -/
def pLitCS : List Char → List Char → Option (List Char)
  | [], cs => some cs
  | l :: ls, c :: cs => if c = l then pLitCS ls cs else none
  | _ :: _, [] => none

/-- A single given character. -/
def pChar (ch : Char) : List Char → Option (List Char)
  | c :: cs => if c = ch then some cs else none
  | [] => none

/-- `\d{1,2}`, greedy: one or two digits. -/
def pDigits12 : List Char → Option (List Char × List Char)
  | [] => none
  | [a] => if isDigitChar a then some ([a], []) else none
  | a :: b :: rest =>
    if isDigitChar a then
      if isDigitChar b then some ([a, b], rest) else some ([a], b :: rest)
    else none

/-- `\d{n}`: exactly `n` digits. -/
def pDigitsN : Nat → List Char → Option (List Char × List Char)
  | 0, cs => some ([], cs)
  | _ + 1, [] => none
  | n + 1, c :: cs =>
    if isDigitChar c then
      match pDigitsN n cs with
      | some (d, rest) => some (c :: d, rest)
      | none => none
    else none

/-- `\d{1,2}/\d{1,2}` (the date token of `parse_header`), returning the
matched characters and the rest. -/
def pDateTok12 (cs : List Char) : Option (List Char × List Char) :=
  match pDigits12 cs with
  | none => none
  | some (d1, cs) =>
    match pChar '/' cs with
    | none => none
    | some cs =>
      match pDigits12 cs with
      | none => none
      | some (d2, cs) => some (d1 ++ '/' :: d2, cs)

/-- `\d{1,2}/\d{2}` (the date token of `is_valid_jmlr_format`). -/
def pDate2 (cs : List Char) : Option (List Char) :=
  match pDigits12 cs with
  | none => none
  | some (_, cs) =>
    match pChar '/' cs with
    | none => none
    | some cs =>
      match pDigitsN 2 cs with
      | none => none
      | some (_, cs) => some cs

/-- The captured groups of the `parse_header` regex, in order:
`(\d+\s*)?` volume, `(\d{4})` year, `(\d+)` start page, `(\d+)` end
page, `(\d{1,2}/\d{1,2})` submitted, `((?:\d{1,2}/\d{1,2}\s*)?)`
revised (present exactly when the `Revised` group participated), and
`(\d{1,2}/\d{1,2}\s*)?` published.  `none` models a group that did not
participate in the match. -/
structure HGroups where
  volume : Option String
  year : String
  start_page : String
  end_page : String
  submitted : String
  revised : Option String
  published : Option String
deriving DecidableEq

/-- The full-match test and group extraction for the `parse_header`
regex (`proc_jmlr_lite.py` line 170, compiled with `re.IGNORECASE`):
`^\s*Journal of Machine Learning Research\s*(?:volume\s*)?(\d+\s*)?`
`\((\d{4})\)\s*(\d+)[-–](\d+)\s*[\r\n]*Submitted\s*(\d{1,2}/\d{1,2})`
`\s*(?:[,;])?\s*(?:Revised\s*:?((?:\d{1,2}/\d{1,2}\s*)?);)?\s*`
`Published\s*(\d{1,2}/\d{1,2}\s*)?$`.
The trailing `$` can only be reached with the whole input consumed,
because the element before it ends with a greedy `\s*`. -/
def parse_header_groups (header : String) : Option HGroups :=
  -- ^\s*
  let cs := header.data.dropWhile isSpaceChar
  -- Journal of Machine Learning Research  (IGNORECASE)
  match pLitCI "Journal of Machine Learning Research".data cs with
  | none => none
  | some cs =>
  -- \s*
  let cs := cs.dropWhile isSpaceChar
  -- (?:volume\s*)?
  let cs := match pLitCI "volume".data cs with
    | some r => r.dropWhile isSpaceChar
    | none => cs
  -- (\d+\s*)?  — group 1; participates exactly when a digit is present
  let d1 := cs.takeWhile isDigitChar
  let rest1 := cs.dropWhile isDigitChar
  let g1 : Option String :=
    if d1 = [] then none else some ⟨d1 ++ rest1.takeWhile isSpaceChar⟩
  let cs := if d1 = [] then cs else rest1.dropWhile isSpaceChar
  -- \(
  match pChar '(' cs with
  | none => none
  | some cs =>
  -- (\d{4})  — group 2
  match pDigitsN 4 cs with
  | none => none
  | some (g2, cs) =>
  -- \)
  match pChar ')' cs with
  | none => none
  | some cs =>
  -- \s*
  let cs := cs.dropWhile isSpaceChar
  -- (\d+)  — group 3
  let g3 := cs.takeWhile isDigitChar
  let cs := cs.dropWhile isDigitChar
  if g3 = [] then none else
  -- [-–]  (hyphen or en dash)
  match cs with
  | [] => none
  | c :: cs =>
  if ¬ (c = '-' ∨ c = '–') then none else
  -- (\d+)  — group 4
  let g4 := cs.takeWhile isDigitChar
  let cs := cs.dropWhile isDigitChar
  if g4 = [] then none else
  -- \s*[\r\n]*  (the [\r\n]* is absorbed by the greedy \s*, which
  -- already contains \r and \n)
  let cs := cs.dropWhile isSpaceChar
  -- Submitted  (IGNORECASE)
  match pLitCI "Submitted".data cs with
  | none => none
  | some cs =>
  -- \s*
  let cs := cs.dropWhile isSpaceChar
  -- (\d{1,2}/\d{1,2})  — group 5
  match pDateTok12 cs with
  | none => none
  | some (g5, cs) =>
  -- \s*
  let cs := cs.dropWhile isSpaceChar
  -- (?:[,;])?
  let cs := match cs with
    | c :: r => if c = ',' ∨ c = ';' then r else c :: r
    | [] => []
  -- \s*
  let cs := cs.dropWhile isSpaceChar
  -- (?:Revised\s*:?((?:\d{1,2}/\d{1,2}\s*)?);)?  — group 6.
  -- If the literal `Revised` matches, the group is committed: were the
  -- group skipped instead, the continuation `\s*Published` would
  -- immediately fail on the letter R.
  let step6 : Option (Option String × List Char) :=
    match pLitCI "Revised".data cs with
    | none => some (none, cs)
    | some r =>
      let r := r.dropWhile isSpaceChar
      let r := match r with
        | ':' :: r2 => r2
        | _ => r
      match r with
      | [] => none
      | c :: _ =>
        if isDigitChar c then
          -- the inner optional date is committed on a digit: the empty
          -- alternative would require `;` where a digit stands
          match pDateTok12 r with
          | none => none
          | some (d, r2) =>
            let w := r2.takeWhile isSpaceChar
            match r2.dropWhile isSpaceChar with
            | ';' :: r4 => some (some ⟨d ++ w⟩, r4)
            | _ => none
        else
          match r with
          | ';' :: r4 => some (some "", r4)
          | _ => none
  match step6 with
  | none => none
  | some (g6, cs) =>
  -- \s*
  let cs := cs.dropWhile isSpaceChar
  -- Published  (IGNORECASE)
  match pLitCI "Published".data cs with
  | none => none
  | some cs =>
  -- \s*
  let cs := cs.dropWhile isSpaceChar
  -- (\d{1,2}/\d{1,2}\s*)?  — group 7, committed on a digit
  let step7 : Option (Option String × List Char) :=
    match cs with
    | [] => some (none, [])
    | c :: _ =>
      if isDigitChar c then
        match pDateTok12 cs with
        | none => none
        | some (d, r2) =>
          some (some ⟨d ++ r2.takeWhile isSpaceChar⟩, r2.dropWhile isSpaceChar)
      else some (none, cs)
  match step7 with
  | none => none
  | some (g7, cs) =>
  -- $
  if cs = [] then some ⟨g1, ⟨g2⟩, ⟨g3⟩, ⟨g4⟩, ⟨g5⟩, g6, g7⟩ else none

/-- The `HeaderInfo` dictionary produced by `parse_header`: six string
fields, the empty string standing for an unset field. -/
structure HeaderInfo where
  volume : String
  year : String
  n_pages : String
  submitted : String
  revised : String
  published : String
deriving DecidableEq

/-- Model of Python `str.strip()` (whitespace stripped on both ends). -/
def pyStrip (s : String) : String :=
  ⟨((s.data.dropWhile isSpaceChar).reverse.dropWhile isSpaceChar).reverse⟩

/-- `parse_header` (`proc_jmlr_lite.py` lines 147-228): empty header or
no regex match give the all-empty record; otherwise fields are computed
from the captured groups, `n_pages = str(int(end) - int(start) + 1)`
when both page groups are non-empty, and the three dates go through
`year_process`.  The inner `match` fall-through models the `ValueError`
Python `int` would raise on a non-digit capture (unreachable: groups 3
and 4 are digit runs). -/
def parse_header (header : String) : HeaderInfo :=
  if header = "" then ⟨"", "", "", "", "", ""⟩
  else
    match parse_header_groups header with
    | none => ⟨"", "", "", "", "", ""⟩
    | some g =>
      let volume := pyStrip (g.volume.getD "")
      let year := pyStrip g.year
      let start_page := pyStrip g.start_page
      let end_page := pyStrip g.end_page
      let n_pages :=
        if start_page ≠ "" ∧ end_page ≠ "" then
          match digitsToNat start_page.data, digitsToNat end_page.data with
          | some s, some e => toString ((e : Int) - (s : Int) + 1)
          | _, _ => ""
        else ""
      let submitted := year_process (pyStrip g.submitted)
      let revised := year_process (pyStrip (g.revised.getD ""))
      let published := year_process (pyStrip (g.published.getD ""))
      ⟨volume, year, n_pages, submitted, revised, published⟩

/-! ### Length lemmas for the parser pieces (used for termination) -/

theorem pChar_length {ch : Char} {cs r : List Char} (h : pChar ch cs = some r) :
    r.length < cs.length := by
  match cs with
  | [] => simp [pChar] at h
  | c :: cs =>
    simp only [pChar] at h
    split at h
    · cases h; simp
    · cases h

theorem pDigits12_length {cs : List Char} {d r : List Char}
    (h : pDigits12 cs = some (d, r)) : r.length < cs.length := by
  match cs with
  | [] => simp [pDigits12] at h
  | [a] =>
    simp only [pDigits12] at h
    split at h
    · cases h; simp
    · cases h
  | a :: b :: rest =>
    simp only [pDigits12] at h
    split at h
    · split at h
      · cases h; simp only [List.length_cons]; omega
      · cases h; simp only [List.length_cons]; omega
    · cases h

theorem pDigitsN_length {n : Nat} {cs : List Char} {d r : List Char}
    (h : pDigitsN n cs = some (d, r)) : r.length ≤ cs.length := by
  induction n generalizing cs d r with
  | zero => simp only [pDigitsN] at h; cases h; exact le_rfl
  | succ n ih =>
    match cs with
    | [] => simp [pDigitsN] at h
    | c :: cs =>
      simp only [pDigitsN] at h
      split at h
      · split at h
        · next heq =>
          cases h
          exact le_trans (ih heq) (by simp)
        · cases h
      · cases h

theorem pDate2_length {cs r : List Char} (h : pDate2 cs = some r) :
    r.length < cs.length := by
  simp only [pDate2] at h
  split at h
  · cases h
  · next d1 cs1 h1 =>
    split at h
    · cases h
    · next cs2 h2 =>
      split at h
      · cases h
      · next d2 cs3 h3 =>
        cases h
        calc r.length ≤ cs2.length := pDigitsN_length h3
          _ < cs1.length := pChar_length h2
          _ < cs.length := pDigits12_length h1

theorem length_dropWhile_le' (p : Char → Bool) (l : List Char) :
    (l.dropWhile p).length ≤ l.length := by
  induction l with
  | nil => simp
  | cons c cs ih =>
    simp only [List.dropWhile]
    split
    · exact le_trans ih (by simp)
    · simp

/-! ### `is_valid_jmlr_format` (`proc_jmlr.py` lines 108-119) -/

/-- The repetition `(?:&\s*\d{1,2}/\d{2}\s*)*` inside the `Revised`
group of `is_valid_jmlr_format`: committed on an ampersand (the only
continuation after the repetition is `;`, which is not `&`). -/
def jmlr_rev_list (cs : List Char) : Option (List Char) :=
  match cs with
  | '&' :: r =>
    match h2 : pDate2 (r.dropWhile isSpaceChar) with
    | none => none
    | some r2 => jmlr_rev_list (r2.dropWhile isSpaceChar)
  | _ => some cs
termination_by cs.length
decreasing_by
  have h3 := pDate2_length h2
  have h4 := length_dropWhile_le' isSpaceChar r
  have h5 := length_dropWhile_le' isSpaceChar r2
  simp only [List.length_cons]
  omega

/-- The full-match chain of the `is_valid_jmlr_format` regex
(`proc_jmlr.py` line 118, case-sensitive, `re.match` with a final `$`):
`^\s*Journal of Machine Learning Research\s*(?:volume\s*)?(\d+\s*)?`
`\(\d{4}\)\s*\d+-\d+\s*Submitted\s*\d{1,2}/\d{2}\s*(?:;)?\s*`
`(?:Revised\s*(?:\d{1,2}/\d{2}\s*(?:&\s*\d{1,2}/\d{2}\s*)*)?;)?\s*`
`Published\s*(?:\d{1,2}/\d{2}\s*)?$`. -/
def jmlr_chain (cs0 : List Char) : Option Unit :=
  -- ^\s*
  let cs := cs0.dropWhile isSpaceChar
  -- Journal of Machine Learning Research
  match pLitCS "Journal of Machine Learning Research".data cs with
  | none => none
  | some cs =>
  -- \s*
  let cs := cs.dropWhile isSpaceChar
  -- (?:volume\s*)?
  let cs := match pLitCS "volume".data cs with
    | some r => r.dropWhile isSpaceChar
    | none => cs
  -- (\d+\s*)?
  let cs :=
    if cs.takeWhile isDigitChar = [] then cs
    else (cs.dropWhile isDigitChar).dropWhile isSpaceChar
  -- \(
  match pChar '(' cs with
  | none => none
  | some cs =>
  -- \d{4}
  match pDigitsN 4 cs with
  | none => none
  | some (_, cs) =>
  -- \)
  match pChar ')' cs with
  | none => none
  | some cs =>
  -- \s*
  let cs := cs.dropWhile isSpaceChar
  -- \d+
  let d3 := cs.takeWhile isDigitChar
  let cs := cs.dropWhile isDigitChar
  if d3 = [] then none else
  -- -
  match pChar '-' cs with
  | none => none
  | some cs =>
  -- \d+
  let d4 := cs.takeWhile isDigitChar
  let cs := cs.dropWhile isDigitChar
  if d4 = [] then none else
  -- \s*
  let cs := cs.dropWhile isSpaceChar
  -- Submitted
  match pLitCS "Submitted".data cs with
  | none => none
  | some cs =>
  -- \s*
  let cs := cs.dropWhile isSpaceChar
  -- \d{1,2}/\d{2}
  match pDate2 cs with
  | none => none
  | some cs =>
  -- \s*
  let cs := cs.dropWhile isSpaceChar
  -- (?:;)?
  let cs := match cs with
    | ';' :: r => r
    | _ => cs
  -- \s*
  let cs := cs.dropWhile isSpaceChar
  -- (?:Revised\s*(?:\d{1,2}/\d{2}\s*(?:&\s*\d{1,2}/\d{2}\s*)*)?;)?
  -- committed when the literal `Revised` matches (the continuation
  -- `\s*Published` fails on the letter R otherwise)
  let step : Option (List Char) :=
    match pLitCS "Revised".data cs with
    | none => some cs
    | some r =>
      let r := r.dropWhile isSpaceChar
      match r with
      | [] => none
      | c :: _ =>
        if isDigitChar c then
          -- committed on a digit: the empty date list would need `;` here
          match pDate2 r with
          | none => none
          | some r2 =>
            match jmlr_rev_list (r2.dropWhile isSpaceChar) with
            | none => none
            | some r3 =>
              match r3 with
              | ';' :: r4 => some r4
              | _ => none
        else
          match r with
          | ';' :: r4 => some r4
          | _ => none
  match step with
  | none => none
  | some cs =>
  -- \s*
  let cs := cs.dropWhile isSpaceChar
  -- Published
  match pLitCS "Published".data cs with
  | none => none
  | some cs =>
  -- \s*
  let cs := cs.dropWhile isSpaceChar
  -- (?:\d{1,2}/\d{2}\s*)?  committed on a digit
  let step2 : Option (List Char) :=
    match cs with
    | [] => some []
    | c :: _ =>
      if isDigitChar c then
        match pDate2 cs with
        | none => none
        | some r2 => some (r2.dropWhile isSpaceChar)
      else some cs
  match step2 with
  | none => none
  | some cs =>
  -- $
  if cs = [] then some () else none

/-- `is_valid_jmlr_format` (`proc_jmlr.py` lines 108-119). -/
def is_valid_jmlr_format (s : String) : Bool :=
  (jmlr_chain s.data).isSome

/-! ### `is_valid_id` (`proc_jmlr.py` lines 122-133) -/

/-- The footnote glyph class `[\*†♢♯♭‡∗]` of `is_valid_id`. -/
def glyphChars : List Char := ['*', '†', '♢', '♯', '♭', '‡', '∗']

/-- One id token `(?:\d+|[\*†♢♯♭‡∗])`: a greedy digit run, or failing
that a single footnote glyph. -/
def pTok (cs : List Char) : Option (List Char) :=
  if cs.takeWhile isDigitChar ≠ [] then some (cs.dropWhile isDigitChar)
  else
    match cs with
    | c :: r => if c ∈ glyphChars then some r else none
    | [] => none

theorem pTok_length {cs r : List Char} (h : pTok cs = some r) :
    r.length < cs.length := by
  simp only [pTok] at h
  split at h
  · next hne =>
    cases h
    match cs with
    | [] => simp [List.takeWhile] at hne
    | c :: cs =>
      by_cases hc : isDigitChar c
      · simp only [List.dropWhile, hc, List.length_cons]
        exact Nat.lt_succ_of_le (length_dropWhile_le' _ _)
      · simp [List.takeWhile, hc] at hne
  · split at h
    · next c r2 =>
      split at h
      · cases h; simp
      · cases h
    · cases h

/-- The tail of the second `is_valid_id` alternative after its first
token: `(?:\s*,\s*(?:\d+|[glyph]))*\s*,?\s*$`.  After skipping
whitespace, a comma followed (after whitespace) by a token continues the
repetition; a comma not followed by a token must be the trailing `,?`
(the repetition cannot consume it), after which only whitespace may
remain; anything else ends the repetition and must be whitespace up to
the end of the input.

The `fuel` argument makes the recursion structural (every iteration
consumes at least three characters, so any `fuel ≥ cs.length` computes
the full repetition; `alt2_rest_fuel_congr` below proves the value is
independent of the fuel in that range). -/
def alt2_rest_go : Nat → List Char → Bool
  | 0, cs => decide (cs.dropWhile isSpaceChar = [])
  | fuel + 1, cs =>
    match cs.dropWhile isSpaceChar with
    | ',' :: r =>
      match pTok (r.dropWhile isSpaceChar) with
      | some cs2 => alt2_rest_go fuel cs2
      | none => decide (r.dropWhile isSpaceChar = [])
    | cs1 => decide (cs1 = [])

/-- The repetition tail run with enough fuel. -/
def alt2_rest (cs : List Char) : Bool := alt2_rest_go cs.length cs

theorem alt2_rest_fuel_congr :
    ∀ (n : Nat) (cs : List Char), cs.length ≤ n →
      ∀ f1 f2, cs.length ≤ f1 → cs.length ≤ f2 →
        alt2_rest_go f1 cs = alt2_rest_go f2 cs := by
  intro n
  induction n with
  | zero =>
    intro cs hle f1 f2 _ _
    have : cs = [] := List.length_eq_zero.mp (Nat.le_zero.mp hle)
    subst this
    match f1, f2 with
    | 0, 0 => rfl
    | 0, _ + 1 => rfl
    | _ + 1, 0 => rfl
    | _ + 1, _ + 1 => rfl
  | succ n ih =>
    intro cs hle f1 f2 h1 h2
    cases cs with
    | nil =>
      match f1, f2 with
      | 0, 0 => rfl
      | 0, _ + 1 => rfl
      | _ + 1, 0 => rfl
      | _ + 1, _ + 1 => rfl
    | cons c cs' =>
      simp only [List.length_cons] at hle h1 h2
      cases f1 with
      | zero => omega
      | succ g1 =>
        cases f2 with
        | zero => omega
        | succ g2 =>
          simp only [alt2_rest_go]
          split
          · next r heq =>
            split
            · next cs2 htok =>
              have hr : r.length ≤ cs'.length := by
                have h5 : ((c :: cs').dropWhile isSpaceChar).length ≤
                    (c :: cs').length := length_dropWhile_le' _ _
                rw [heq] at h5
                simp only [List.length_cons] at h5
                omega
              have hcs2 : cs2.length < r.length := by
                have ht := pTok_length htok
                have hd := length_dropWhile_le' isSpaceChar r
                omega
              exact ih cs2 (by omega) g1 g2 (by omega) (by omega)
            · rfl
          · rfl

/-- The second `is_valid_id` alternative
`\s*(?:\d+|[glyph])(?:\s*,\s*(?:\d+|[glyph]))*\s*,?\s*$`. -/
def alt2 (cs : List Char) : Bool :=
  match pTok (cs.dropWhile isSpaceChar) with
  | some r => alt2_rest r
  | none => false

/-- The first `is_valid_id` alternative `\s*\d+\s*$`. -/
def alt1 (cs : List Char) : Bool :=
  let cs1 := cs.dropWhile isSpaceChar
  decide (cs1.takeWhile isDigitChar ≠ [] ∧
    (cs1.dropWhile isDigitChar).dropWhile isSpaceChar = [])

/-- The lone-glyph pattern `^\s*[\*†♢♯♭‡∗]\s*$` subtracted by
`is_valid_id`. -/
def lone_glyph (cs : List Char) : Bool :=
  match cs.dropWhile isSpaceChar with
  | c :: r => decide (c ∈ glyphChars) && decide (r.dropWhile isSpaceChar = [])
  | [] => false

/-- `is_valid_id` (`proc_jmlr.py` lines 122-133):
`re.match(^(?:\s*\d+\s*$|\s*tok(\s*,\s*tok)*\s*,?\s*$), s)` and not
`re.match(^\s*[glyph]\s*$, s)`. -/
def is_valid_id (s : String) : Bool :=
  (alt1 s.data || alt2 s.data) && !(lone_glyph s.data)

/-! ### `compare_alphanumeric` (`proc_jmlr.py` lines 84-105) -/

/-- Modelled from the spec: the Unicode compatibility decomposition
(NFKD) applied by `unicodedata.normalize("NFKD", ...)` — an external
library call — restricted to a character table covering the ligatures
and accented letters exercised by the pipeline; characters without a
listed compatibility decomposition (in particular all ASCII characters)
are left unchanged. -/
def nfkd_char (c : Char) : List Char :=
  if c = 'ﬁ' then ['f', 'i']
  else if c = 'ﬂ' then ['f', 'l']
  else if c = 'ﬀ' then ['f', 'f']
  else if c = 'ﬃ' then ['f', 'f', 'i']
  else if c = 'ﬄ' then ['f', 'f', 'l']
  else if c = 'é' then ['e', '́']
  else if c = 'è' then ['e', '̀']
  else if c = 'á' then ['a', '́']
  else if c = 'ö' then ['o', '̈']
  else if c = 'ü' then ['u', '̈']
  else [c]

/-- `unicodedata.normalize("NFKD", s)` under the table above. -/
def pyNFKD (s : String) : String := ⟨(s.data.map nfkd_char).flatten⟩

/-- Model of Python `str.lower()` (exact on ASCII; non-ASCII cased
letters are filtered out by the alphanumeric projection below either
way). -/
def pyLower (s : String) : String := ⟨s.data.map Char.toLower⟩

/-- The filter of `compare_alphanumeric`:
`ord("0") <= ord(c) <= ord("9") or ord("a") <= ord(c) <= ord("z")`. -/
def keep_alnum (cs : List Char) : List Char :=
  cs.filter fun c =>
    decide ((48 ≤ c.toNat ∧ c.toNat ≤ 57) ∨ (97 ≤ c.toNat ∧ c.toNat ≤ 122))

/-- `compare_alphanumeric` (`proc_jmlr.py` lines 84-105): NFKD-normalize
and lower-case both strings, keep only `0-9a-z`, compare. -/
def compare_alphanumeric (str1 str2 : String) : Bool :=
  let normalized1 := pyLower (pyNFKD str1)
  let normalized2 := pyLower (pyNFKD str2)
  decide (keep_alnum normalized1.data = keep_alnum normalized2.data)

/-- The projection the specification describes: Unicode compatibility
decomposition, then case folding, then removal of all characters other
than `0-9a-z`. -/
def nl_projection (s : String) : List Char :=
  keep_alnum (pyLower (pyNFKD s)).data

/-! ## The full pipeline: `proc_jmlr.py` -/

/-- A text span of the full pipeline (`inspect_fonts_pymupdf`):
`{"text": str, "location": (x0, y0, x1, y1), "size": float, "font": str}`
(the style string is never consulted by the analysis and is omitted). -/
structure Piece where
  text : String
  x0 : ℤ
  y0 : ℤ
  x1 : ℤ
  y1 : ℤ
  font : String
  size : ℤ
deriving DecidableEq

/-- An entry of the `authors` list: `{"name": str, "affiliation": [str]}`. -/
structure Author where
  name : String
  affiliation : List String
deriving DecidableEq

/-- The metadata dictionary exposed on success: `title`, `authors`,
`editor` (`None` possible). -/
structure Metadata where
  title : String
  authors : List Author
  editor : Option String
deriving DecidableEq

/-- The `(success, payload, info)` triple returned by `analysis_result`
and `analysis_normal_format`: `success md` models `(True, md, None)`,
`failure t r` models `(False, t, r)`. -/
inductive Outcome where
  | success (md : Metadata)
  | failure (title : String) (reason : String)
deriving DecidableEq

/-- The title slot of an outcome (second component of the Python triple). -/
def outcome_title : Outcome → String
  | .success md => md.title
  | .failure t _ => t

theorem getElem?_lt {α : Type} {l : List α} {i : Nat} {a : α}
    (h : l[i]? = some a) : i < l.length := by
  by_contra hlt
  rw [List.getElem?_eq_none (by omega)] at h
  cases h

/-- `get_editor_line` (`proc_jmlr.py` lines 177-190): index of the first
span whose text is exactly `Editor:`, `None` if absent. -/
def get_editor_line (result : List Piece) : Option Nat :=
  result.findIdx? fun p => p.text == "Editor:"

/-- Body of the `get_authors_line` loop over a list of indices: keep the
indices whose span has the same font name and font size as the span at
`first`.  Both index accesses are in the `Option` monad (they are in
range at every call site, `line < editor_line ≤ result.length`). -/
def authors_loop (result : List Piece) (first : Nat) : List Nat → Option (List Nat)
  | [] => some []
  | l :: rest =>
    match result[l]? with
    | none => none
    | some p =>
      match result[first]? with
      | none => none
      | some f =>
        match authors_loop result first rest with
        | none => none
        | some tail =>
          some (if p.font = f.font ∧ p.size = f.size then l :: tail else tail)

/-- `get_authors_line` (`proc_jmlr.py` lines 193-212):
`for line in range(first_authors_line, editor_line)` keep lines with the
same font and size as the first. -/
def get_authors_line (first editor : Nat) (result : List Piece) : Option (List Nat) :=
  authors_loop result first (List.range' first (editor - first))

/-- Model of Python `abs` on the integer coordinate model. -/
def py_abs (x : ℤ) : ℤ := if x < 0 then -x else x

/-- Body of the `check_authors_aline` loop: fail (return `false`) at the
first author index whose left x-coordinate differs from the first
author-line x-coordinate by more than 5. -/
def aline_loop (result : List Piece) (firstp : Piece) : List Nat → Option Bool
  | [] => some true
  | a :: rest =>
    match result[a]? with
    | none => none
    | some p =>
      if py_abs (p.x0 - firstp.x0) > 5 then some false
      else aline_loop result firstp rest

/-- `check_authors_aline` (`proc_jmlr.py` lines 136-151).  Python
evaluates `result[authors_line_list[0]]` inside the loop; on an empty
index list the loop body never runs and the function returns `True`. -/
def check_authors_aline (lst : List Nat) (result : List Piece) : Option Bool :=
  match lst with
  | [] => some true
  | a0 :: _ =>
    match result[a0]? with
    | none => none
    | some f => aline_loop result f lst

/-- The inner `while` of `check_email_location` (`proc_jmlr.py` lines
165-171) for one author span `ap`:
`while result[author_line]["location"][3] > result[now_line]["location"][1]`
`and now_line < len(result): now_line += 1;`
`if "@" in result[now_line]["text"]: find_email = True`.
The guard indexes `result[now_line]` before testing the bound, and the
body indexes `result[now_line]` after the increment with no bound test:
that second access is the one that can fall off the end of the list
(modelled by `none`). -/
def email_go (ap : Piece) : List Piece → Bool → Option Bool
  | [], _ => none
  | p :: rest, find =>
    -- `result[now_line]` exists, so the `now_line < len(result)` conjunct
    -- of the guard is automatically true and is omitted
    if ap.y1 > p.y0 then
      match rest with
      | [] => none
      | q :: _ => email_go ap rest (find || q.text.data.contains '@')
    else some find

/-- The scan, with `remaining = result[now_line:]`. -/
def email_scan (result : List Piece) (ap : Piece) (now : Nat) (find : Bool) :
    Option Bool :=
  email_go ap (result.drop now) find

/-- `check_email_location` (`proc_jmlr.py` lines 154-174): every author
line must have a span containing `@` strictly below it (bounded by the
author bottom coordinate). -/
def check_email_location (lst : List Nat) (result : List Piece) : Option Bool :=
  match lst with
  | [] => some true
  | a :: rest =>
    match result[a]? with
    | none => none
    | some ap =>
      match email_scan result ap a false with
      | none => none
      | some found =>
        if found then check_email_location rest result else some false

/-- The author-name cleanup of `analysis_normal_format` (lines 259-261):
`while now_author[-1] in ["*", "†"]: now_author = now_author[:-1]`,
working on the reversed character list; `none` models the `IndexError`
Python raises when `now_author` is (or becomes) empty. -/
def strip_marks_rev : List Char → Option (List Char)
  | [] => none
  | c :: rest =>
    if c = '*' ∨ c = '†' then strip_marks_rev rest else some (c :: rest)

/-- Strip trailing `*` and `†` from an author name. -/
def strip_author (s : String) : Option String :=
  match strip_marks_rev s.data.reverse with
  | none => none
  | some l => some ⟨l.reverse⟩

/-- The positioning loop of `analysis_normal_format` (line 265-267):
`line = author_line + 1;`
`while line < len(result) and result[line]["location"][1] < result[author_line]["location"][3]: line += 1`
(the bound is tested before the access, so this loop is total). -/
def skip_below_go (ap : Piece) : List Piece → Nat → Nat
  | [], line => line
  | p :: rest, line =>
    if p.y0 < ap.y1 then skip_below_go ap rest (line + 1) else line

/-- The positioning loop, with `remaining = result[line:]` (empty
exactly when `line ≥ len(result)`, which is the bound exit). -/
def skip_below (result : List Piece) (ap : Piece) (line : Nat) : Nat :=
  skip_below_go ap (result.drop line) line

/-- Result of the affiliation-collection loop: either the collected
tokens together with the final value of `line`, or the `error str`
early return. -/
inductive CollectRes where
  | errStr
  | collected (aff : List String) (line : Nat)
deriving DecidableEq

/-- Python membership test
`result[line]["text"] not in {" ", ",", ".", "-", "&", "(", ")", "/"}`
combined with the three `ord` range tests of lines 277-281: `true` when
the single character is not a digit, not a lower-case letter, not an
upper-case letter and not one of the eight allowed punctuation marks. -/
def single_char_bad (c : Char) : Bool :=
  decide ((57 < c.toNat ∨ c.toNat < 48) ∧ (c.toNat < 97 ∨ 122 < c.toNat) ∧
    (c.toNat < 65 ∨ 90 < c.toNat) ∧
    ¬ (c = ' ' ∨ c = ',' ∨ c = '.' ∨ c = '-' ∨ c = '&' ∨ c = '(' ∨ c = ')' ∨ c = '/'))

/-- The affiliation-collection loop of `analysis_normal_format`
(lines 270-286): `while line < len(result) and text != "Editor:" and`
`(i == len(authors_line_list)-1 or line != authors_line_list[i+1])`;
inside, a one-character span failing `single_char_bad` returns the
`error str` outcome, otherwise the text is appended and `line`
advances.  `stop` is `authors_line_list[i+1]` for a non-last author and
`none` for the last one. -/
def collect_go (stop : Option Nat) : List Piece → Nat → CollectRes
  | [], line => .collected [] line
  | p :: rest, line =>
    if p.text = "Editor:" then .collected [] line
    else if stop = some line then .collected [] line
    else if (match p.text.data with | [c] => single_char_bad c | _ => false) then
      .errStr
    else
      match collect_go stop rest (line + 1) with
      | .errStr => .errStr
      | .collected aff l => .collected (p.text :: aff) l

/-- The collection loop, with `remaining = result[line:]` (empty exactly
when `line ≥ len(result)`, the bound exit of the guard). -/
def collect_affil (result : List Piece) (stop : Option Nat) (line : Nat) :
    CollectRes :=
  collect_go stop (result.drop line) line

/-- Result of processing the author list: the built `authors` list and
the final value of the `line` variable, or the `error str` return. -/
inductive BuildRes where
  | errStr
  | built (authors : List Author) (line : Nat)
deriving DecidableEq

/-- The `for i, author_line in enumerate(authors_line_list)` loop of
`analysis_normal_format` (lines 257-286).  Each iteration reads the
author span, strips trailing footnote marks from the name (a possible
`IndexError`, hence `Option`), positions `line` below the name and
collects affiliation tokens up to the next author line
(`rest.head?`) or `Editor:`.  `line0` is the value the `line` variable
has if the list is empty. -/
def build_authors (result : List Piece) (line0 : Nat) :
    List Nat → Option BuildRes
  | [] => some (.built [] line0)
  | a :: rest =>
    match result[a]? with
    | none => none
    | some p =>
      match strip_author p.text with
      | none => none
      | some name =>
        match collect_affil result rest.head? (skip_below result p (a + 1)) with
        | .errStr => some .errStr
        | .collected aff l =>
          match build_authors result l rest with
          | none => none
          | some .errStr => some .errStr
          | some (.built as lf) => some (.built (⟨name, aff⟩ :: as) lf)

/-- The affiliation back-fill of `analysis_normal_format` (lines
304-306): `for author in range(len(authors) - 2, -1, -1): if
authors[author]["affiliation"] == []: authors[author]["affiliation"] =
authors[author + 1]["affiliation"]` — iterating right to left, an
author with an empty affiliation list inherits the (already resolved)
affiliation list of the immediately following author. -/
def backfill : List Author → List Author
  | [] => []
  | a :: rest =>
    let rest' := backfill rest
    if a.affiliation = [] then
      { a with affiliation := ((rest'.head?).map Author.affiliation).getD [] } :: rest'
    else a :: rest'

/-- `analysis_normal_format` (`proc_jmlr.py` lines 215-308). -/
def analysis_normal_format (line : Nat) (result : List Piece) (title : String) :
    Option Outcome :=
  match get_editor_line result with
  | none => some (.failure title "No editor")
  | some editor_line =>
    match get_authors_line line editor_line result with
    | none => none
    | some lst =>
      if lst = [] then some (.failure title "No authors")
      else
        match check_authors_aline lst result with
        | none => none
        | some al =>
          if al = false then some (.failure title "Authors not aline")
          else
            match check_email_location lst result with
            | none => none
            | some em =>
              if em = false then some (.failure title "Email location not valid")
              else
                match build_authors result line lst with
                | none => none
                | some .errStr => some (.failure title "error str")
                | some (.built authors lineF) =>
                  -- `metadata_dict["editor"] = result[line+1]["text"] if line+1 < len(result) else None`
                  let editor := (result[lineF + 1]?).map Piece.text
                  if authors = [] then some (.failure title "authors not found")
                  else if authors.getLast?.map Author.affiliation = some [] then
                    some (.failure title "empty author affiliation")
                  else some (.success ⟨title, backfill authors, editor⟩)

/-! ### `analysis_result` (`proc_jmlr.py` lines 311-398) -/

/-- The header-accumulation loop (lines 335-340):
`while not is_valid_jmlr_format(header) and line + 1 < len(result):`
`line += 1; header += result[line]["text"]`.  Returns the final value of
`line`; the bound `line + 1 < len(result)` keeps every access in
range. -/
def header_go : List Piece → Nat → String → Nat
  | [], line, _ => line
  | p :: rest, line, header =>
    if is_valid_jmlr_format header then line
    else header_go rest (line + 1) (header ++ p.text)

/-- The loop, with `remaining = result[line+1:]` (empty exactly when
`line + 1 ≥ len(result)`, the bound exit; the head of `remaining` is the
span appended after the increment). -/
def header_loop (result : List Piece) (line : Nat) (header : String) : Nat :=
  header_go (result.drop (line + 1)) line header

/-- The title-accumulation loop (lines 354-357):
`while line + 1 < len(result) and not compare_alphanumeric(title, pdf_name):`
`line += 1; title += result[line]["text"]`.  Returns the final `line`
and accumulated title. -/
def title_go (name : String) : List Piece → Nat → String → Nat × String
  | [], line, title => (line, title)
  | p :: rest, line, title =>
    if compare_alphanumeric title name then (line, title)
    else title_go name rest (line + 1) (title ++ p.text)

/-- The loop, with `remaining = result[line+1:]` (empty exactly when
`line + 1 ≥ len(result)`, the bound exit; the head of `remaining` is the
span appended after the increment). -/
def title_loop (result : List Piece) (name : String) (line : Nat) (title : String) :
    Nat × String :=
  title_go name (result.drop (line + 1)) line title

/-- The title-loop outcome as used by `analysis_result` (line 359):
`Sum.inl ()` models the `if line >= len(result) - 1: return False,`
`pdf_name, "cannot find title"` early return, `Sum.inr line` the
continuation with the final line index. -/
def title_phase (result : List Piece) (name : String) (line : Nat) (t0 : String) :
    Sum Unit Nat :=
  let j := (title_loop result name line t0).1
  if j ≥ result.length - 1 then Sum.inl () else Sum.inr j

/-- The title-block skip loop (lines 364-367): `line = title_line + 1;`
`while result[line]["location"][1] < result[title_line]["location"][3]:`
`line += 1`.  There is no bound test, so the access itself can raise
`IndexError` (the `none` case). -/
def skip_title_go (tl : Piece) : List Piece → Nat → Option Nat
  | [], _ => none
  | p :: rest, line =>
    if p.y0 < tl.y1 then skip_title_go tl rest (line + 1) else some line

/-- The skip loop, with `remaining = result[line:]` (an empty remainder
is the out-of-range access `result[line]`, i.e. the `IndexError`). -/
def skip_title (result : List Piece) (tl : Piece) (line : Nat) : Option Nat :=
  skip_title_go tl (result.drop line) line

/-- The loop of the inner `judge_format` (lines 383-388):
`now_str = ""; line += 1; while not is_valid_id(now_str) and line <`
`len(result): now_str += result[line]["text"]; line += 1`; afterwards
`return False if line >= len(result) else True`.  The bound is part of
the guard, so the loop is total. -/
def judge_go : List Piece → String → Bool
  | [], _ => false
  | p :: rest, now_str =>
    if is_valid_id now_str then true else judge_go rest (now_str ++ p.text)

/-- The loop together with the final `line >= len(result)` test, with
`remaining = result[line:]`: the loop exits on an empty remainder with
`line ≥ len(result)` (hence `False`), and on a match with at least one
span left (hence `line < len(result)`, `True`). -/
def judge_loop (result : List Piece) (now_str : String) (line : Nat) : Bool :=
  judge_go (result.drop line) now_str

/-- `judge_format` (`proc_jmlr.py` lines 371-391): accumulate span texts
starting one past `line` until the accumulation matches `is_valid_id`;
report id format (`true`) only when at least one span is left
unconsumed. -/
def judge_format (line : Nat) (result : List Piece) : Bool :=
  judge_loop result "" (line + 1)

/-- `pdf_name = pdf_name[:-4] if pdf_name.endswith(".pdf") else pdf_name`
(line 349), on the character list: the name ends with `.pdf` exactly
when its last four characters are `.pdf` (a shorter name cannot, since
dropping `length - 4 = 0` characters leaves fewer than four). -/
def strip_pdf (s : String) : String :=
  if s.data.drop (s.data.length - 4) = ['.', 'p', 'd', 'f'] then
    ⟨s.data.take (s.data.length - 4)⟩
  else s

/-- `analysis_result` (`proc_jmlr.py` lines 311-398).  `none` models an
unhandled exception (`IndexError`): the very first span access
`result[0]`, the title-block skip loop and (inside
`analysis_normal_format`) the email scan and the author-name shrink are
the places where one can occur. -/
def analysis_result (pdf_name : String) (result : List Piece) : Option Outcome :=
  match result[0]? with
  | none => none
  | some p0 =>
    -- header accumulation, then `line += 1`
    let lineA := header_loop result 0 p0.text + 1
    -- `if line >= len(result): line = 0`
    let lineB := if lineA ≥ result.length then 0 else lineA
    let name := strip_pdf pdf_name
    match result[lineB]? with
    | none => none
    | some t0 =>
      match title_phase result name lineB t0.text with
      | Sum.inl _ => some (.failure name "cannot find title")
      | Sum.inr j =>
        match result[j]? with
        | none => none
        | some tl =>
          match skip_title result tl (j + 1) with
          | none => none
          | some lineD =>
            -- `metadata_dict["title"] = pdf_name`
            if judge_format lineD result then some (.failure name "id format")
            else analysis_normal_format lineD result name

/-! ## Concrete inputs used by the theorems below -/

/-- A five-span input on which the pipeline crashes: after the title
span `T` the single author line `Alice` has bottom coordinate 20, and
every later span starts above 20, so the email scan walks past the end
of the list. -/
def c1_spans : List Piece := [
  ⟨"T", 0, 0, 50, 10, "H", 9⟩,
  ⟨"Alice", 0, 10, 50, 20, "F", 10⟩,
  ⟨"aff", 0, 11, 50, 21, "G", 10⟩,
  ⟨"Editor:", 0, 12, 50, 22, "G", 10⟩,
  ⟨"foot", 0, 13, 50, 23, "G", 10⟩]

/-- A four-span input on which `analysis_normal_format` succeeds with a
single author. -/
def c7_spans : List Piece := [
  ⟨"Alice", 0, 10, 50, 20, "F", 10⟩,
  ⟨"alice@x.edu", 0, 15, 90, 19, "G", 9⟩,
  ⟨"MIT", 0, 25, 50, 30, "G", 9⟩,
  ⟨"Editor:", 0, 35, 50, 40, "G", 9⟩]

/-- A four-span input whose author block accumulates to `1, 2` with one
span left over: the pipeline classifies it as id format. -/
def c8_spans : List Piece := [
  ⟨"T", 0, 0, 50, 10, "H", 9⟩,
  ⟨"Alice", 0, 10, 50, 20, "F", 10⟩,
  ⟨"1, 2", 0, 21, 50, 25, "G", 9⟩,
  ⟨"rest", 0, 26, 50, 30, "G", 9⟩]

/-- A three-span input whose id accumulation (`""`, `"*"`, `"*, 2"`)
first matches the id grammar exactly on consuming the last span. -/
def c10_spans : List Piece := [
  ⟨"x", 0, 0, 10, 5, "F", 9⟩,
  ⟨"*", 0, 6, 10, 9, "F", 9⟩,
  ⟨", 2", 0, 10, 10, 14, "F", 9⟩]

/-- A second id-format pipeline input, with a `.pdf` name (used to
witness the exposed-title part of the title-resolver claim). -/
def c6_pipe : List Piece := [
  ⟨"T2", 0, 0, 50, 10, "H", 9⟩,
  ⟨"x", 0, 10, 50, 20, "F", 10⟩,
  ⟨"1, 2", 0, 21, 50, 25, "G", 9⟩,
  ⟨"z", 0, 26, 50, 30, "G", 9⟩]

/-- A two-span input on which the title accumulation exhausts the spans
without matching (`"A"`, then `"AB"`, never equal to `"Z"`). -/
def c6_fail : List Piece := [
  ⟨"A", 0, 0, 10, 5, "F", 9⟩,
  ⟨"B", 0, 6, 10, 9, "F", 9⟩]

/-! ## C1 — totality of the pipeline (code bug) -/

/-- C1: the claim states that `analysis_result` together with
`analysis_normal_format` is total and in particular that the
email-adjacency scan never indexes past the end of the span list.  The
code violates this: on `c1_spans` the scan of `check_email_location`
increments `now_line` past the last index and dereferences it, raising
`IndexError` (modelled by `none`).  This theorem evaluates the pipeline
at the failing input. -/
theorem C1_pipeline_crash : analysis_result "T" c1_spans = none := by decide

/-! ## C2 — region segmentation -/

/-- C2: with `(left_index, right_index) = anchor_scan pieces` as
computed by the source (`-1` = not found), the segmenter returns
exactly `pieces[:left_index] + pieces[right_index:]` when both anchors
are found in order, and in every other case raises the
extraction-anchor error (the embedding is pure, so the input list is
returned unchanged by failure — there is no partial mutation); in
particular a span list with no Editor/Abstract token and no copyright
glyph always lands in the error case. -/
theorem C2_coarse_filter_segmentation :
    (∀ pieces : List LPiece,
      ((anchor_scan pieces).1 ≠ -1 ∧ (anchor_scan pieces).2 ≠ -1 ∧
          (anchor_scan pieces).1 < (anchor_scan pieces).2 →
        coarse_filter_pieces pieces =
          Except.ok (pieces.take (anchor_scan pieces).1.toNat ++
            pieces.drop (anchor_scan pieces).2.toNat)) ∧
      (¬ ((anchor_scan pieces).1 ≠ -1 ∧ (anchor_scan pieces).2 ≠ -1 ∧
          (anchor_scan pieces).1 < (anchor_scan pieces).2) →
        coarse_filter_pieces pieces =
          Except.error "Cannot find Editor / Abstract and Copyright")) ∧
    (∀ pieces : List LPiece,
      (∀ p ∈ pieces, hasEditorTok p.text = false ∧ hasAbstractTok p.text = false ∧
          hasCopyright p.text = false) →
      coarse_filter_pieces pieces =
        Except.error "Cannot find Editor / Abstract and Copyright") := by
  have aux : ∀ (pieces : List LPiece) (i : Int) (lr : Int × Int),
      (∀ p ∈ pieces, hasEditorTok p.text = false ∧ hasAbstractTok p.text = false ∧
        hasCopyright p.text = false) →
      anchor_scan_aux pieces i lr = lr := by
    intro pieces
    induction pieces with
    | nil => intro i lr _; rfl
    | cons p rest ih =>
      intro i lr hall
      obtain ⟨h1, h2, h3⟩ := hall p (List.mem_cons_self p rest)
      match lr with
      | (l, r) =>
        simp only [anchor_scan_aux, h1, h2, h3, Bool.false_eq_true, if_false,
          ite_self]
        exact ih (i + 1) (l, r) fun q hq => hall q (List.mem_cons_of_mem p hq)
  refine ⟨fun pieces => ⟨fun h => ?_, fun h => ?_⟩, fun pieces hall => ?_⟩
  · simp only [coarse_filter_pieces, if_pos h]
  · simp only [coarse_filter_pieces, if_neg h]
  · have hscan : anchor_scan pieces = (-1, -1) := aux pieces 0 (-1, -1) hall
    simp only [coarse_filter_pieces, hscan]
    norm_num

/-- Witness for C2: a one-piece list with no anchors lands in the error
case, and a list with Editor at index 0 and a copyright glyph at
index 2 keeps exactly the spans before the Editor anchor together with
the spans from the copyright anchor on. -/
theorem C2_coarse_filter_segmentation_witness :
    coarse_filter_pieces [⟨"hello", 0, 0, 1, 1⟩] =
      Except.error "Cannot find Editor / Abstract and Copyright" ∧
    coarse_filter_pieces
        [⟨"Editors note", 0, 0, 1, 1⟩, ⟨"body", 0, 2, 1, 3⟩, ⟨"© 2020", 0, 4, 1, 5⟩] =
      Except.ok [(⟨"© 2020", 0, 4, 1, 5⟩ : LPiece)] := by
  constructor
  · exact (C2_coarse_filter_segmentation.2 [⟨"hello", 0, 0, 1, 1⟩] (by decide))
  · exact ((C2_coarse_filter_segmentation.1 _).1 (by decide)).trans rfl

/-! ## C4 — the two-digit-year boundary examples (corrected) -/

/-- C4 counterexample: the claim says `"9/89"` normalizes to
`"1989.09"`; the code maps two-digit years below 90 to the 2000s, so
`"9/89"` in fact normalizes to `"2089.09"`. -/
theorem C4_counterexample :
    year_process "9/89" = "2089.09" ∧ year_process "9/89" ≠ "1989.09" := by
  decide

/-- C4 amended: `year_process "9/89" = "2089.09"` (not `"1989.09"`: the
boundary at two-digit year 90 sends 89 to 2089) and
`year_process "9/90" = "1990.09"`. -/
theorem C4_amended :
    year_process "9/89" = "2089.09" ∧ year_process "9/90" = "1990.09" := by
  decide

/-! ## C9 — invariance of the title comparison -/

/-- C9: `compare_alphanumeric` returns `True` on every pair of strings
whose NFKD-decomposed, case-folded, alphanumeric-only projections
agree. -/
theorem C9_projection_invariance :
    ∀ s1 s2 : String, nl_projection s1 = nl_projection s2 →
      compare_alphanumeric s1 s2 = true := by
  intro s1 s2 h
  simpa [compare_alphanumeric, nl_projection] using h

/-- Witness for C9: a title fragment containing the `ﬁ` ligature
matches the canonical identifier spelled with plain `fi`. -/
theorem C9_projection_invariance_witness :
    compare_alphanumeric "Deﬁnition" "Definition" = true :=
  C9_projection_invariance "Deﬁnition" "Definition" (by decide)

/-! ## C3 — date normalization rule -/

theorem str_data_append (a b : String) : (a ++ b).data = a.data ++ b.data := by
  cases a
  cases b
  rfl

theorem splitSlash_no_slash {b : List Char} (h : '/' ∉ b) : splitSlash b = [b] := by
  induction b with
  | nil => rfl
  | cons c rest ih =>
    have hc : ¬ c = '/' := fun hc => h (hc ▸ List.mem_cons_self c rest)
    have hr : '/' ∉ rest := fun hm => h (List.mem_cons_of_mem c hm)
    simp only [splitSlash, if_neg hc, ih hr]

theorem splitSlash_append {a : List Char} (b : List Char) (h : '/' ∉ a) :
    splitSlash (a ++ '/' :: b) = a :: splitSlash b := by
  induction a with
  | nil => simp [splitSlash]
  | cons c rest ih =>
    have hc : ¬ c = '/' := fun hc => h (hc ▸ List.mem_cons_self c rest)
    have hr : '/' ∉ rest := fun hm => h (List.mem_cons_of_mem c hm)
    simp only [List.cons_append, splitSlash, if_neg hc, List.append_eq]
    rw [ih hr]

theorem digitsToNat_ne_nil {cs : List Char} {n : Nat} (h : digitsToNat cs = some n) :
    cs ≠ [] := by
  simp only [digitsToNat] at h
  split at h
  · next hc => exact hc.1
  · cases h

theorem digitsToNat_all_digits {cs : List Char} {n : Nat}
    (h : digitsToNat cs = some n) : ∀ c ∈ cs, isDigitChar c = true := by
  simp only [digitsToNat] at h
  split at h
  · next hc => exact fun c hm => List.all_eq_true.mp hc.2 c hm
  · cases h

theorem digitsToNat_no_slash {cs : List Char} {n : Nat}
    (h : digitsToNat cs = some n) : '/' ∉ cs := by
  intro hm
  have := digitsToNat_all_digits h '/' hm
  simp [isDigitChar] at this

theorem digit_char_bounds {c : Char} (h : isDigitChar c = true) :
    48 ≤ c.toNat ∧ c.toNat ≤ 57 := by
  simpa [isDigitChar] using h

theorem digitsToNat_lt_100 {cs : List Char} {n : Nat}
    (h : digitsToNat cs = some n) (hl : cs.length ≤ 2) : n < 100 := by
  have hall := digitsToNat_all_digits h
  simp only [digitsToNat] at h
  split at h
  · next hc =>
    match cs, hl with
    | [], _ => exact absurd rfl hc.1
    | [a], _ =>
      obtain ⟨ha1, ha2⟩ := digit_char_bounds (hall a (by simp))
      simp only [List.foldl, Option.some.injEq] at h
      omega
    | [a, b], _ =>
      obtain ⟨ha1, ha2⟩ := digit_char_bounds (hall a (by simp))
      obtain ⟨hb1, hb2⟩ := digit_char_bounds (hall b (by simp))
      simp only [List.foldl, Option.some.injEq] at h
      omega
  · cases h

theorem repr_1900 : ∀ y, y < 100 → Nat.repr (1900 + y) = "19" ++ pad2 y := by
  decide

theorem repr_2000 : ∀ y, y < 100 → Nat.repr (2000 + y) = "20" ++ pad2 y := by
  decide

/-- C3: for every captured `month/year2digit` token (a one-or-two-digit
month string, a slash, a one-or-two-digit year string, as produced by
the `(\d{1,2}/\d{1,2})` captures of the header grammar), the normalized
date is `YYYY.MM` with a zero-padded month, the four-digit year being
`1900 + year2digit` when `year2digit ≥ 90` and `2000 + year2digit`
otherwise. -/
theorem C3_date_normalization :
    ∀ (ms ys : String) (m y : Nat),
      digitsToNat ms.data = some m → digitsToNat ys.data = some y →
      ms.length ≤ 2 → ys.length ≤ 2 →
      year_process (ms ++ "/" ++ ys) =
        Nat.repr (if 90 ≤ y then 1900 + y else 2000 + y) ++ "." ++ pad2 m := by
  intro ms ys m y hm hy _ hyl
  have hdata : (ms ++ "/" ++ ys).data = ms.data ++ '/' :: ys.data := by
    rw [str_data_append, str_data_append]
    simp
  have hne : ¬ (ms ++ "/" ++ ys) = "" := by
    intro he
    have : (ms ++ "/" ++ ys).data = [] := by rw [he]
    rw [hdata] at this
    simp at this
  have hy100 : y < 100 := by
    have : ys.data.length ≤ 2 := hyl
    exact digitsToNat_lt_100 hy this
  have hsplit : splitSlash (ms ++ "/" ++ ys).data = [ms.data, ys.data] := by
    rw [hdata, splitSlash_append _ (digitsToNat_no_slash hm),
      splitSlash_no_slash (digitsToNat_no_slash hy)]
  simp only [year_process, if_neg hne, hsplit, hm, hy]
  by_cases h90 : 90 ≤ y
  · rw [if_pos h90, if_pos h90, repr_1900 y hy100]
  · rw [if_neg h90, if_neg h90, repr_2000 y hy100]

/-- Witness for C3: the two spec examples, `9/18` ↦ `2018.09` and
`12/19` ↦ `2019.12`. -/
theorem C3_date_normalization_witness :
    year_process "9/18" = "2018.09" ∧ year_process "12/19" = "2019.12" := by
  constructor
  · have h := C3_date_normalization "9" "18" 9 18 (by decide) (by decide)
      (by decide) (by decide)
    exact h.trans (by decide)
  · have h := C3_date_normalization "12" "19" 12 19 (by decide) (by decide)
      (by decide) (by decide)
    exact h.trans (by decide)

/-! ## C5 — page count from the header grammar -/

theorem str_ne_empty_of_data {s : String} (h : s.data ≠ []) : s ≠ "" := by
  intro he
  exact h (by rw [he])

/-- C5: whenever the citation grammar matches a header, the `n_pages`
field equals `str(end_page - start_page + 1)` computed from the two
captured page bounds (which the grammar always captures as non-empty
digit runs), and it is left unset (empty) in the hypothetical case of a
missing bound. -/
theorem C5_n_pages :
    (∀ (header : String) (g : HGroups) (sn en : Nat),
      parse_header_groups header = some g →
      digitsToNat (pyStrip g.start_page).data = some sn →
      digitsToNat (pyStrip g.end_page).data = some en →
      (parse_header header).n_pages = toString ((en : Int) - (sn : Int) + 1)) ∧
    (∀ (header : String) (g : HGroups),
      parse_header_groups header = some g →
      (pyStrip g.start_page = "" ∨ pyStrip g.end_page = "") →
      (parse_header header).n_pages = "") := by
  have hempty : parse_header_groups "" = none := by decide
  constructor
  · intro header g sn en hg hs he
    have hne : header ≠ "" := by
      intro h0
      rw [h0, hempty] at hg
      cases hg
    have hsne : pyStrip g.start_page ≠ "" :=
      str_ne_empty_of_data (digitsToNat_ne_nil hs)
    have hene : pyStrip g.end_page ≠ "" :=
      str_ne_empty_of_data (digitsToNat_ne_nil he)
    simp only [parse_header, if_neg hne, hg, if_pos (And.intro hsne hene), hs, he]
  · intro header g hg hor
    have hne : header ≠ "" := by
      intro h0
      rw [h0, hempty] at hg
      cases hg
    have : ¬ (pyStrip g.start_page ≠ "" ∧ pyStrip g.end_page ≠ "") := by
      rcases hor with h | h
      · exact fun hc => hc.1 h
      · exact fun hc => hc.2 h
    simp only [parse_header, if_neg hne, hg, if_neg this]

/-- Witness for C5: the spec example header with page range `1-37`
parses with `n_pages = "37"`. -/
theorem C5_n_pages_witness :
    (parse_header ("Journal of Machine Learning Research 21 (2020) 1-37 " ++
      "Submitted 9/18; Revised 12/19; Published 9/20")).n_pages = "37" := by
  have h := C5_n_pages.1
    ("Journal of Machine Learning Research 21 (2020) 1-37 " ++
      "Submitted 9/18; Revised 12/19; Published 9/20")
    ⟨some "21 ", "2020", "1", "37", "9/18", some "12/19", some "9/20"⟩
    1 37 (by decide) (by decide) (by decide)
  exact h.trans (by decide)

/-! ## C10 — id classification requires an unconsumed span -/

/-- Concatenation of the texts of a list of spans. -/
def strcat : List Piece → String
  | [] => ""
  | p :: rest => p.text ++ strcat rest

/-- Concatenation of the texts of the spans with indices in `[a, b)`:
the string accumulated by the scanning loops after consuming the spans
`a, ..., b-1`. -/
def textcat (result : List Piece) (a b : Nat) : String :=
  strcat ((result.drop a).take (b - a))

theorem str_append_empty (s : String) : s ++ "" = s := by
  cases s with
  | mk d => show String.mk (d ++ []) = String.mk d; rw [List.append_nil]

theorem str_empty_append (s : String) : "" ++ s = s := by
  cases s with
  | mk d => show String.mk ([] ++ d) = String.mk d; rw [List.nil_append]

theorem str_append_assoc (a b c : String) : a ++ b ++ c = a ++ (b ++ c) := by
  cases a with
  | mk x =>
    cases b with
    | mk y =>
      cases c with
      | mk z => show String.mk (x ++ y ++ z) = String.mk (x ++ (y ++ z))
                rw [List.append_assoc]

theorem judge_go_false :
    ∀ (rest : List Piece) (s : String),
      is_valid_id (s ++ strcat rest) = true →
      (∀ k, k < rest.length → is_valid_id (s ++ strcat (rest.take k)) = false) →
      judge_go rest s = false := by
  intro rest
  induction rest with
  | nil => intro s _ _; rfl
  | cons p rest' ih =>
    intro s hall hpre
    have h0 : is_valid_id s = false := by
      have h := hpre 0 (by simp)
      simpa [strcat, str_append_empty] using h
    simp only [judge_go, h0, Bool.false_eq_true, if_false]
    apply ih
    · simpa [strcat, ← str_append_assoc] using hall
    · intro k hk
      have h := hpre (k + 1) (by simpa using Nat.succ_lt_succ hk)
      simpa [strcat, ← str_append_assoc] using h

/-- C10: when the accumulated author-block text first satisfies the
id-token grammar exactly upon consuming the last span (every stage that
stops short of the last span — including the initial empty string — is
invalid, and consuming all spans from `line+1` to the end is valid),
`judge_format` returns `false` and the document is processed as normal
format: id classification requires at least one unconsumed span after
the matching accumulation step. -/
theorem C10_judge_format_needs_residue :
    ∀ (result : List Piece) (line : Nat),
      (∀ j, j < result.length → line + 1 ≤ j →
        is_valid_id (textcat result (line + 1) j) = false) →
      is_valid_id (textcat result (line + 1) result.length) = true →
      judge_format line result = false := by
  intro result line h1 h2
  have hlen : (result.drop (line + 1)).length = result.length - (line + 1) :=
    List.length_drop _ _
  show judge_go (result.drop (line + 1)) "" = false
  apply judge_go_false
  · have htc : textcat result (line + 1) result.length =
        strcat (result.drop (line + 1)) := by
      unfold textcat
      congr 1
      apply List.take_of_length_le
      omega
    rw [str_empty_append, ← htc]
    exact h2
  · intro k hk
    have hj := h1 (line + 1 + k) (by omega) (by omega)
    have htc : textcat result (line + 1) (line + 1 + k) =
        strcat ((result.drop (line + 1)).take k) := by
      unfold textcat
      congr 2
      omega
    rw [str_empty_append, ← htc]
    exact hj

/-- Witness for C10: on `c10_spans` with `line = 0` the stages are `""`
(invalid), `"*"` (a lone glyph, invalid) and `"*, 2"` (valid, consuming
the last span): `judge_format` reports normal format. -/
theorem C10_judge_format_needs_residue_witness :
    judge_format 0 c10_spans = false :=
  C10_judge_format_needs_residue c10_spans 0 (by decide) (by decide)

/-! ## C7 — non-empty affiliations after back-fill -/

theorem backfill_length (l : List Author) : (backfill l).length = l.length := by
  induction l with
  | nil => rfl
  | cons a rest ih =>
    simp only [backfill]
    split <;> simp [ih]

theorem backfill_all_nonempty :
    ∀ l : List Author, (∀ last, l.getLast? = some last → last.affiliation ≠ []) →
      ∀ a ∈ backfill l, a.affiliation ≠ [] := by
  intro l
  induction l with
  | nil => intro _ a ha; simp [backfill] at ha
  | cons x rest ih =>
    intro hlast a ha
    cases rest with
    | nil =>
      have hx : x.affiliation ≠ [] := hlast x (by simp)
      simp only [backfill, if_neg hx] at ha
      simp only [List.mem_singleton] at ha
      exact ha ▸ hx
    | cons y t =>
      have hrest : ∀ last, (y :: t).getLast? = some last → last.affiliation ≠ [] := by
        intro last hl
        exact hlast last (by rw [List.getLast?_cons_cons]; exact hl)
      have ihr := ih hrest
      have hbne : backfill (y :: t) ≠ [] := by
        intro hnil
        have hlen := backfill_length (y :: t)
        rw [hnil] at hlen
        simp at hlen
      obtain ⟨b, bs, hh⟩ : ∃ b bs, backfill (y :: t) = b :: bs := by
        match hb2 : backfill (y :: t) with
        | [] => exact absurd hb2 hbne
        | b :: bs => exact ⟨b, bs, rfl⟩
      simp only [backfill] at ha
      split at ha
      · rcases List.mem_cons.mp ha with rfl | hmem
        · show (((backfill (y :: t)).head?.map Author.affiliation).getD []) ≠ []
          rw [hh]
          simp only [List.head?, Option.map_some, Option.getD_some]
          exact ihr b (hh ▸ List.mem_cons_self b bs)
        · exact ihr a hmem
      · rcases List.mem_cons.mp ha with rfl | hmem
        · next hx => exact hx
        · exact ihr a hmem

/-- C7: whenever `analysis_normal_format` returns a success outcome the
authors list is non-empty and every author's affiliation list is
non-empty (the last author's affiliation is checked non-empty and the
right-to-left back-fill gives every empty affiliation the resolved
affiliation of the following author); and the back-fill resolves
`[A(aff=[]), B(aff=[]), C(aff=["Univ X"])]` so that A, B and C all have
affiliation `["Univ X"]`. -/
theorem C7_affiliation_invariant :
    (∀ (line : Nat) (result : List Piece) (title : String) (md : Metadata),
      analysis_normal_format line result title = some (Outcome.success md) →
      md.authors ≠ [] ∧ ∀ a ∈ md.authors, a.affiliation ≠ []) ∧
    backfill [⟨"A", []⟩, ⟨"B", []⟩, ⟨"C", ["Univ X"]⟩] =
      [⟨"A", ["Univ X"]⟩, ⟨"B", ["Univ X"]⟩, ⟨"C", ["Univ X"]⟩] := by
  constructor
  · intro line result title md h
    unfold analysis_normal_format at h
    split at h
    · simp at h
    · split at h
      · cases h
      · split at h
        · simp at h
        · split at h
          · cases h
          · split at h
            · simp at h
            · split at h
              · cases h
              · split at h
                · simp at h
                · split at h
                  · cases h
                  · simp at h
                  · next authors lineF hbuild =>
                    split at h
                    · simp at h
                    · split at h
                      · simp at h
                      · next hauth hlast =>
                        simp only [Option.some.injEq, Outcome.success.injEq] at h
                        subst h
                        constructor
                        · intro hnil
                          have hnil2 : backfill authors = [] := hnil
                          have hlen := backfill_length authors
                          rw [hnil2] at hlen
                          simp at hlen
                          exact hauth (List.eq_nil_of_length_eq_zero hlen.symm)
                        · apply backfill_all_nonempty
                          intro last hl hcontra
                          apply hlast
                          rw [hl]
                          show some last.affiliation = some []
                          rw [hcontra]
  · decide

/-- Witness for C7: on `c7_spans` the pipeline succeeds with a single
author whose affiliation is `["MIT"]`; the invariant instantiates
there. -/
theorem C7_affiliation_invariant_witness :
    (⟨"T", [⟨"Alice", ["MIT"]⟩], none⟩ : Metadata).authors ≠ [] ∧
      ∀ a ∈ (⟨"T", [⟨"Alice", ["MIT"]⟩], none⟩ : Metadata).authors,
        a.affiliation ≠ [] :=
  C7_affiliation_invariant.1 0 c7_spans "T" ⟨"T", [⟨"Alice", ["MIT"]⟩], none⟩
    (by decide)

/-! ## C6 — title resolver: first match, failure condition, exposed title -/

theorem title_go_spec (name : String) :
    ∀ (rest : List Piece) (line : Nat) (title : String),
      line ≤ (title_go name rest line title).1 ∧
      (title_go name rest line title).1 ≤ line + rest.length ∧
      (title_go name rest line title).2 =
        title ++ strcat (rest.take ((title_go name rest line title).1 - line)) ∧
      (∀ k, k < (title_go name rest line title).1 - line →
        compare_alphanumeric (title ++ strcat (rest.take k)) name = false) ∧
      (compare_alphanumeric (title_go name rest line title).2 name = true ∨
        (title_go name rest line title).1 = line + rest.length) := by
  intro rest
  induction rest with
  | nil =>
    intro line title
    refine ⟨?_, ?_, ?_, ?_, ?_⟩ <;> simp only [title_go]
    · exact le_rfl
    · simp
    · simp [strcat, str_append_empty]
    · intro k hk
      simp at hk
    · right
      simp
  | cons p rest' ih =>
    intro line title
    by_cases hc : compare_alphanumeric title name = true
    · refine ⟨?_, ?_, ?_, ?_, ?_⟩ <;> simp only [title_go, if_pos hc]
      · exact le_rfl
      · simp
      · simp [strcat, str_append_empty]
      · intro k hk
        simp at hk
      · exact Or.inl hc
    · have hcf : compare_alphanumeric title name = false := by
        revert hc
        cases compare_alphanumeric title name <;> simp
      simp only [title_go, if_neg hc]
      obtain ⟨ih1, ih2, ih3, ih4, ih5⟩ := ih (line + 1) (title ++ p.text)
      refine ⟨by omega, by simp only [List.length_cons]; omega, ?_, ?_, ?_⟩
      · rw [ih3]
        have hm : (title_go name rest' (line + 1) (title ++ p.text)).1 - line =
            ((title_go name rest' (line + 1) (title ++ p.text)).1 - (line + 1)) + 1 := by
          omega
        rw [hm, List.take_succ_cons]
        show (title ++ p.text) ++ _ = title ++ (p.text ++ _)
        exact str_append_assoc _ _ _
      · intro k hk
        cases k with
        | zero =>
          simpa [strcat, str_append_empty] using hcf
        | succ k' =>
          rw [List.take_succ_cons]
          show compare_alphanumeric (title ++ (p.text ++ strcat (rest'.take k'))) name
            = false
          rw [← str_append_assoc]
          exact ih4 k' (by omega)
      · rcases ih5 with hl | hr
        · exact Or.inl hl
        · exact Or.inr (by simp only [List.length_cons]; omega)

theorem analysis_normal_format_title
    {line : Nat} {result : List Piece} {title : String} {o : Outcome}
    (h : analysis_normal_format line result title = some o) :
    outcome_title o = title := by
  unfold analysis_normal_format at h
  split at h
  · cases h; rfl
  · split at h
    · cases h
    · split at h
      · cases h; rfl
      · split at h
        · cases h
        · split at h
          · cases h; rfl
          · split at h
            · cases h
            · split at h
              · cases h; rfl
              · split at h
                · cases h
                · cases h; rfl
                · split at h
                  · cases h; rfl
                  · split at h
                    · cases h; rfl
                    · cases h; rfl

/-- C6: the title resolver (1) never matches at any accumulation step
strictly before the one it stops at (it stops at the first matching
step), (2) stops either because the accumulated title's projection
matches the canonical identifier's or because the spans are exhausted,
(3) returns the `cannot find title` outcome exactly when no
accumulation step whose stop position leaves at least one unconsumed
span matches, and (4) every outcome the pipeline exposes carries the
canonical identifier (the stripped pdf name), never the accumulated raw
span text. -/
theorem C6_title_resolver :
    (∀ (result : List Piece) (name : String) (lineB : Nat) (t0 : String),
      (∀ k, lineB ≤ k → k < (title_loop result name lineB t0).1 →
        compare_alphanumeric (t0 ++ textcat result (lineB + 1) (k + 1)) name
          = false) ∧
      (compare_alphanumeric (title_loop result name lineB t0).2 name = true ∨
        (title_loop result name lineB t0).1 + 1 ≥ result.length) ∧
      (title_phase result name lineB t0 = Sum.inl () ↔
        ∀ k, lineB ≤ k → k + 1 < result.length →
          compare_alphanumeric (t0 ++ textcat result (lineB + 1) (k + 1)) name
            = false)) ∧
    (∀ (pdf_name : String) (result : List Piece) (o : Outcome),
      analysis_result pdf_name result = some o →
      outcome_title o = strip_pdf pdf_name) := by
  constructor
  · intro result name lineB t0
    obtain ⟨h1, h2, h3, h4, h5⟩ :=
      title_go_spec name (result.drop (lineB + 1)) lineB t0
    have hrest : (result.drop (lineB + 1)).length = result.length - (lineB + 1) :=
      List.length_drop _ _
    have hloop : title_loop result name lineB t0 =
        title_go name (result.drop (lineB + 1)) lineB t0 := rfl
    have htc : ∀ k, textcat result (lineB + 1) (k + 1) =
        strcat ((result.drop (lineB + 1)).take (k - lineB)) := by
      intro k
      unfold textcat
      congr 2
      omega
    have partA : ∀ k, lineB ≤ k → k < (title_loop result name lineB t0).1 →
        compare_alphanumeric (t0 ++ textcat result (lineB + 1) (k + 1)) name
          = false := by
      intro k hkb hkj
      rw [htc k]
      exact h4 (k - lineB) (by rw [hloop] at hkj; omega)
    have partB : compare_alphanumeric (title_loop result name lineB t0).2 name
        = true ∨ (title_loop result name lineB t0).1 + 1 ≥ result.length := by
      rw [hloop]
      rcases h5 with hl | hr
      · exact Or.inl hl
      · exact Or.inr (by omega)
    refine ⟨partA, partB, ?_, ?_⟩
    · -- failure direction: title_phase = inl means the final line is at
      -- least length - 1, so every step with an unconsumed span is
      -- strictly before the stop and partA applies
      intro hinl k hkb hklen
      have hj : (title_loop result name lineB t0).1 ≥ result.length - 1 := by
        by_contra hlt
        unfold title_phase at hinl
        rw [if_neg hlt] at hinl
        cases hinl
      exact partA k hkb (by omega)
    · intro hall
      have hj : (title_loop result name lineB t0).1 ≥ result.length - 1 := by
        by_contra hlt
        push_neg at hlt
        rcases partB with hcmp | hbound
        · have hacc : (title_loop result name lineB t0).2 =
              t0 ++ textcat result (lineB + 1)
                ((title_loop result name lineB t0).1 + 1) := by
            rw [htc, hloop]
            exact h3
          rw [hacc] at hcmp
          have hfalse := hall (title_loop result name lineB t0).1
            (by rw [hloop]; exact h1) (by omega)
          rw [hfalse] at hcmp
          cases hcmp
        · omega
      unfold title_phase
      rw [if_pos hj]
  · intro pdf_name result o h
    simp only [analysis_result] at h
    split at h
    · cases h
    · split at h
      · cases h
      · split at h
        · cases h; rfl
        · split at h
          · cases h
          · split at h
            · cases h
            · split at h
              · cases h; rfl
              · exact analysis_normal_format_title h

/-- Witness for C6: on `c6_fail` (texts `A`, `B`) with identifier `Z`
the resolver reports `cannot find title` and indeed the only step that
leaves a span unconsumed does not match; on `c6_pipe` the exposed title
of the pipeline outcome is the stripped pdf name `T2`. -/
theorem C6_title_resolver_witness :
    compare_alphanumeric ("A" ++ textcat c6_fail 1 1) "Z" = false ∧
      outcome_title (Outcome.failure "T2" "id format") = strip_pdf "T2.pdf" := by
  constructor
  · exact ((C6_title_resolver.1 c6_fail "Z" 0 "A").2.2.mp (by decide)) 0
      (by decide) (by decide)
  · exact C6_title_resolver.2 "T2.pdf" c6_pipe (Outcome.failure "T2" "id format")
      (by decide)

/-! ## C8 — the id-token grammar -/

theorem mem_takeWhile_sat {p : Char → Bool} {c : Char} :
    ∀ {l : List Char}, c ∈ l.takeWhile p → p c = true := by
  intro l
  induction l with
  | nil => intro h; simp [List.takeWhile] at h
  | cons x xs ih =>
    intro h
    simp only [List.takeWhile] at h
    split at h
    · next hx =>
      rcases List.mem_cons.mp h with rfl | hm
      · exact hx
      · exact ih hm
    · simp at h

theorem pTok_sound {cs r : List Char} (h : pTok cs = some r) :
    ∀ c ∈ cs, (isDigitChar c = true ∨ c ∈ glyphChars) ∨ c ∈ r := by
  simp only [pTok] at h
  split at h
  · cases h
    intro c hc
    rw [← List.takeWhile_append_dropWhile (p := isDigitChar) (l := cs)] at hc
    rcases List.mem_append.mp hc with h1 | h2
    · exact Or.inl (Or.inl (mem_takeWhile_sat h1))
    · exact Or.inr h2
  · split at h
    · next g r2 =>
      split at h
      · next hg =>
        cases h
        intro c hc
        rcases List.mem_cons.mp hc with rfl | hr
        · exact Or.inl (Or.inr hg)
        · exact Or.inr hr
      · cases h
    · cases h

theorem all_space_of_dropWhile_nil {cs : List Char}
    (h : cs.dropWhile isSpaceChar = []) : ∀ c ∈ cs, isSpaceChar c = true := by
  intro c hc
  rw [← List.takeWhile_append_dropWhile (p := isSpaceChar) (l := cs), h,
    List.append_nil] at hc
  exact mem_takeWhile_sat hc

theorem alt2_rest_go_sound :
    ∀ (fuel : Nat) (cs : List Char), alt2_rest_go fuel cs = true →
      ∀ c ∈ cs, isSpaceChar c = true ∨ isDigitChar c = true ∨
        c ∈ glyphChars ∨ c = ',' := by
  intro fuel
  induction fuel with
  | zero =>
    intro cs h c hc
    simp only [alt2_rest_go, decide_eq_true_eq] at h
    exact Or.inl (all_space_of_dropWhile_nil h c hc)
  | succ fuel ih =>
    intro cs h c hc
    simp only [alt2_rest_go] at h
    rw [← List.takeWhile_append_dropWhile (p := isSpaceChar) (l := cs)] at hc
    split at h
    · next r heq =>
      rw [heq] at hc
      rcases List.mem_append.mp hc with hws | hrest
      · exact Or.inl (mem_takeWhile_sat hws)
      · rcases List.mem_cons.mp hrest with rfl | hr
        · exact Or.inr (Or.inr (Or.inr rfl))
        · rw [← List.takeWhile_append_dropWhile (p := isSpaceChar) (l := r)] at hr
          rcases List.mem_append.mp hr with hws2 | hr2
          · exact Or.inl (mem_takeWhile_sat hws2)
          · split at h
            · next cs2 htok =>
              rcases pTok_sound htok c hr2 with htg | hcs2
              · exact Or.inr (by tauto)
              · exact ih cs2 h c hcs2
            · simp only [decide_eq_true_eq] at h
              rw [h] at hr2
              cases hr2
    · simp only [decide_eq_true_eq] at h
      rw [h, List.append_nil] at hc
      exact Or.inl (mem_takeWhile_sat hc)

theorem alt2_sound {cs : List Char} (h : alt2 cs = true) :
    ∀ c ∈ cs, isSpaceChar c = true ∨ isDigitChar c = true ∨
      c ∈ glyphChars ∨ c = ',' := by
  intro c hc
  simp only [alt2] at h
  split at h
  · next r htok =>
    rw [← List.takeWhile_append_dropWhile (p := isSpaceChar) (l := cs)] at hc
    rcases List.mem_append.mp hc with hws | hd
    · exact Or.inl (mem_takeWhile_sat hws)
    · rcases pTok_sound htok c hd with htg | hr
      · exact Or.inr (by tauto)
      · exact alt2_rest_go_sound r.length r h c hr
  · cases h

theorem alt1_sound {cs : List Char} (h : alt1 cs = true) :
    ∀ c ∈ cs, isSpaceChar c = true ∨ isDigitChar c = true ∨
      c ∈ glyphChars ∨ c = ',' := by
  intro c hc
  simp only [alt1, decide_eq_true_eq] at h
  obtain ⟨-, hrest⟩ := h
  rw [← List.takeWhile_append_dropWhile (p := isSpaceChar) (l := cs)] at hc
  rcases List.mem_append.mp hc with hws | hd
  · exact Or.inl (mem_takeWhile_sat hws)
  · rw [← List.takeWhile_append_dropWhile (p := isDigitChar)
      (l := cs.dropWhile isSpaceChar)] at hd
    rcases List.mem_append.mp hd with hdig | hd2
    · exact Or.inr (Or.inl (mem_takeWhile_sat hdig))
    · exact Or.inl (all_space_of_dropWhile_nil hrest c hd2)

/-- A token of the id grammar as the specification words it: a run of
digits, or a single footnote glyph. -/
inductive SpecTok where
  | digits (cs : List Char)
  | glyph (c : Char)
deriving DecidableEq

/-- Well-formedness of a spec token: a digit token is a non-empty digit
run, a glyph token is one of the seven footnote glyphs. -/
def tokOK : SpecTok → Prop
  | .digits cs => cs ≠ [] ∧ ∀ c ∈ cs, isDigitChar c = true
  | .glyph c => c ∈ glyphChars

/-- The characters of a token. -/
def tokChars : SpecTok → List Char
  | .digits cs => cs
  | .glyph c => [c]

/-- The tail of a comma-and-space-separated rendering. -/
def renderRest : List SpecTok → List Char
  | [] => []
  | t :: ts => ',' :: ' ' :: (tokChars t ++ renderRest ts)

/-- A comma-and-space-separated rendering of a token list (the shape of
the spec's "comma/space-separated list", e.g. `1, 2`). -/
def renderToks : List SpecTok → List Char
  | [] => []
  | t :: ts => tokChars t ++ renderRest ts

theorem glyph_not_digit : ∀ g ∈ glyphChars, isDigitChar g = false := by decide

theorem glyph_not_space : ∀ g ∈ glyphChars, isSpaceChar g = false := by decide

theorem digit_not_space {c : Char} (h : isDigitChar c = true) :
    isSpaceChar c = false := by
  obtain ⟨h1, h2⟩ := digit_char_bounds h
  simp only [isSpaceChar, decide_eq_false_iff_not]
  rintro (rfl | rfl | rfl | rfl | rfl | rfl) <;> exact absurd h1 (by decide)

theorem digit_not_glyph {c : Char} (h : isDigitChar c = true) : c ∉ glyphChars :=
  fun hm => by rw [glyph_not_digit c hm] at h; cases h

theorem takeWhile_all_append {p : Char → Bool} :
    ∀ {xs : List Char} (ys : List Char), (∀ x ∈ xs, p x = true) →
      (xs ++ ys).takeWhile p = xs ++ ys.takeWhile p ∧
        (xs ++ ys).dropWhile p = ys.dropWhile p := by
  intro xs
  induction xs with
  | nil => intro ys _; simp
  | cons x xs' ih =>
    intro ys hall
    have hx : p x = true := hall x (List.mem_cons_self x xs')
    obtain ⟨ht, hd⟩ := ih ys fun z hz => hall z (List.mem_cons_of_mem x hz)
    constructor
    · simp only [List.cons_append, List.takeWhile, hx, List.append_eq]
      rw [ht]
    · simp only [List.cons_append, List.dropWhile, hx, List.append_eq]
      rw [hd]

theorem dropWhile_cons_of_neg {p : Char → Bool} {x : Char} (xs : List Char)
    (h : p x = false) : (x :: xs).dropWhile p = x :: xs := by
  simp [List.dropWhile, h]

theorem takeWhile_cons_of_neg {p : Char → Bool} {x : Char} (xs : List Char)
    (h : p x = false) : (x :: xs).takeWhile p = [] := by
  simp [List.takeWhile, h]

/-- The rendered tail is empty or starts with a comma. -/
theorem renderRest_shape (ts : List SpecTok) :
    renderRest ts = [] ∨ ∃ r, renderRest ts = ',' :: r := by
  cases ts with
  | nil => exact Or.inl rfl
  | cons t ts' => exact Or.inr ⟨' ' :: (tokChars t ++ renderRest ts'), rfl⟩

/-- A well-formed token followed by a rendered tail is never
whitespace-initial. -/
theorem tok_rest_dropWhile {t : SpecTok} (ht : tokOK t) (rest : List Char) :
    (tokChars t ++ rest).dropWhile isSpaceChar = tokChars t ++ rest := by
  cases t with
  | digits cs =>
    obtain ⟨hne, hdig⟩ := ht
    match cs, hne with
    | c :: cs', _ =>
      exact dropWhile_cons_of_neg _
        (digit_not_space (hdig c (List.mem_cons_self c cs')))
  | glyph g =>
    exact dropWhile_cons_of_neg _ (glyph_not_space g ht)

/-- `pTok` consumes exactly a well-formed token when what follows is
empty or starts with a comma. -/
theorem pTok_render {t : SpecTok} {rest : List Char} (ht : tokOK t)
    (hr : rest = [] ∨ ∃ r, rest = ',' :: r) :
    pTok (tokChars t ++ rest) = some rest := by
  have hrd : rest.takeWhile isDigitChar = [] ∧
      rest.dropWhile isDigitChar = rest := by
    rcases hr with rfl | ⟨r, rfl⟩
    · simp
    · exact ⟨takeWhile_cons_of_neg _ (by decide), dropWhile_cons_of_neg _ (by decide)⟩
  cases t with
  | digits cs =>
    obtain ⟨hne, hdig⟩ := ht
    obtain ⟨ht2, hd2⟩ := takeWhile_all_append (p := isDigitChar) rest hdig
    have htne : (cs ++ rest).takeWhile isDigitChar ≠ [] := by
      rw [ht2, hrd.1, List.append_nil]
      exact hne
    simp only [pTok, tokChars, if_pos htne, hd2, hrd.2]
  | glyph g =>
    have htm : g ∈ glyphChars := ht
    have hgd : isDigitChar g = false := glyph_not_digit g htm
    have ht2 : (g :: rest).takeWhile isDigitChar = [] :=
      takeWhile_cons_of_neg _ hgd
    show pTok (g :: rest) = some rest
    simp only [pTok, ht2]
    simp [htm]

/-- `alt2_rest_go` accepts every rendered tail, with any sufficient
fuel. -/
theorem alt2_rest_render :
    ∀ (ts : List SpecTok), (∀ t ∈ ts, tokOK t) →
      ∀ fuel, (renderRest ts).length ≤ fuel →
        alt2_rest_go fuel (renderRest ts) = true := by
  intro ts
  induction ts with
  | nil =>
    intro _ fuel _
    cases fuel with
    | zero => rfl
    | succ f => rfl
  | cons t ts' ih =>
    intro hall fuel hfuel
    have htok : tokOK t := hall t (List.mem_cons_self t ts')
    have hlen : (renderRest (t :: ts')).length =
        2 + (tokChars t).length + (renderRest ts').length := by
      simp only [renderRest, List.length_cons, List.length_append]
      omega
    have htoklen : 1 ≤ (tokChars t).length := by
      cases t with
      | digits cs =>
        obtain ⟨hne, -⟩ := htok
        cases cs with
        | nil => exact absurd rfl hne
        | cons c cs' => simp [tokChars]
      | glyph g => simp [tokChars]
    cases fuel with
    | zero => omega
    | succ f =>
      have hds : (' ' :: (tokChars t ++ renderRest ts')).dropWhile isSpaceChar =
          tokChars t ++ renderRest ts' := by
        show List.dropWhile isSpaceChar (' ' :: _) = _
        rw [List.dropWhile]
        simp only [show isSpaceChar ' ' = true from rfl]
        exact tok_rest_dropWhile htok _
      have hpt : pTok ((' ' :: (tokChars t ++ renderRest ts')).dropWhile isSpaceChar)
          = some (renderRest ts') := by
        rw [hds]
        exact pTok_render htok (renderRest_shape ts')
      show (match pTok ((' ' :: (tokChars t ++ renderRest ts')).dropWhile
              isSpaceChar) with
          | some cs2 => alt2_rest_go f cs2
          | none => decide ((' ' :: (tokChars t ++ renderRest ts')).dropWhile
              isSpaceChar = [])) = true
      rw [hpt]
      exact ih (fun z hz => hall z (List.mem_cons_of_mem t hz)) f (by omega)

theorem lone_glyph_cons_digit {c : Char} (r : List Char)
    (h : isDigitChar c = true) : lone_glyph (c :: r) = false := by
  simp only [lone_glyph]
  rw [dropWhile_cons_of_neg _ (digit_not_space h)]
  show (decide (c ∈ glyphChars) && decide (r.dropWhile isSpaceChar = [])) = false
  simp [digit_not_glyph h]

theorem lone_glyph_glyph_comma {g : Char} (r : List Char) (hg : g ∈ glyphChars) :
    lone_glyph (g :: ',' :: r) = false := by
  simp only [lone_glyph]
  rw [dropWhile_cons_of_neg _ (glyph_not_space g hg)]
  show (decide (g ∈ glyphChars) &&
    decide ((',' :: r).dropWhile isSpaceChar = [])) = false
  rw [dropWhile_cons_of_neg _ (by decide : isSpaceChar ',' = false)]
  simp

/-- Every comma/space-separated rendering of well-formed id tokens is
accepted by `is_valid_id`, except the lone glyph. -/
theorem is_valid_id_render :
    ∀ toks : List SpecTok, (∀ t ∈ toks, tokOK t) → toks ≠ [] →
      (∀ g, toks ≠ [SpecTok.glyph g]) →
      is_valid_id ⟨renderToks toks⟩ = true := by
  intro toks hall hne hng
  match toks, hne with
  | t :: ts, _ =>
    have htok := hall t (List.mem_cons_self t ts)
    have halt2 : alt2 (renderToks (t :: ts)) = true := by
      show alt2 (tokChars t ++ renderRest ts) = true
      simp only [alt2]
      rw [tok_rest_dropWhile htok, pTok_render htok (renderRest_shape ts)]
      show alt2_rest (renderRest ts) = true
      exact alt2_rest_render ts (fun z hz => hall z (List.mem_cons_of_mem t hz))
        _ le_rfl
    have hlg : lone_glyph (renderToks (t :: ts)) = false := by
      cases t with
      | digits cs =>
        obtain ⟨hcne, hdig⟩ := htok
        match cs, hcne with
        | c :: cs', _ =>
          have hcd := hdig c (List.mem_cons_self c cs')
          show lone_glyph (c :: (cs' ++ renderRest ts)) = false
          exact lone_glyph_cons_digit _ hcd
      | glyph g =>
        have hgm : g ∈ glyphChars := htok
        cases ts with
        | nil => exact absurd rfl (hng g)
        | cons t2 ts2 =>
          show lone_glyph
            (g :: ',' :: (' ' :: (tokChars t2 ++ renderRest ts2))) = false
          exact lone_glyph_glyph_comma _ hgm
    simp only [is_valid_id]
    rw [halt2, hlg]
    simp

/-- C8: the id-token classifier accepts comma/space-separated lists of
digit runs and footnote glyphs and rejects a lone glyph, and the
pipeline turns an author block reading `1, 2` into the rejected
`id format` outcome: (1) `"1, 2"` is a valid id; (2) each of the seven
footnote glyphs alone is not; (3) on `c8_spans` (author block `1, 2`)
the pipeline returns `(False, title, "id format")`; (4) soundness —
every accepted string consists only of whitespace, digits, footnote
glyphs and commas; (5) completeness — every comma/space-separated
rendering of well-formed id tokens other than a lone glyph is
accepted. -/
theorem C8_id_format_classifier :
    is_valid_id "1, 2" = true ∧
    (∀ g ∈ glyphChars, is_valid_id ⟨[g]⟩ = false) ∧
    analysis_result "T" c8_spans = some (Outcome.failure "T" "id format") ∧
    (∀ s : String, is_valid_id s = true →
      ∀ c ∈ s.data, isSpaceChar c = true ∨ isDigitChar c = true ∨
        c ∈ glyphChars ∨ c = ',') ∧
    (∀ toks : List SpecTok, (∀ t ∈ toks, tokOK t) → toks ≠ [] →
      (∀ g, toks ≠ [SpecTok.glyph g]) →
      is_valid_id ⟨renderToks toks⟩ = true) := by
  refine ⟨by decide, by decide, by decide, ?_, is_valid_id_render⟩
  intro s h c hc
  simp only [is_valid_id, Bool.and_eq_true, Bool.or_eq_true] at h
  rcases h.1 with h1 | h2
  · exact alt1_sound h1 c hc
  · exact alt2_sound h2 c hc

/-- Witness for C8: the rendering of the token list `[12, *]` is
accepted by the classifier. -/
theorem C8_id_format_classifier_witness :
    is_valid_id ⟨renderToks [SpecTok.digits ['1', '2'], SpecTok.glyph '*']⟩
      = true := by
  apply C8_id_format_classifier.2.2.2.2
  · intro t ht
    rcases List.mem_cons.mp ht with rfl | ht2
    · exact ⟨by decide, by decide⟩
    · rcases List.mem_cons.mp ht2 with rfl | ht3
      · show '*' ∈ glyphChars
        decide
      · cases ht3
  · intro h
    cases h
  · intro g h
    cases h
